import Mathlib

/-!
Verification of the `template` package (CSV-driven mail merge).

The Go source (`template.go`) is embedded shallowly:

* bytes are modelled as `List Char` (the inputs of interest are ASCII, and
  UTF-8 byte order coincides with code-point order, so Go's byte-wise
  string comparison is modelled by code-point-wise comparison);
* the `encoding/csv` reader and the `text/template` engine are external
  collaborators (spec section 1 "OUT OF SCOPE"); they are modelled at the
  interface the spec gives them;
* Go panics (array index out of range) are modelled by a dedicated
  `panic`/`none` outcome, distinct from returned errors;
* `io.EOF`-style sentinel errors are modelled by dedicated constructors.
-/

abbrev Fld := List Char

abbrev Row := List Fld

/-- Lexicographic strict order on char lists, modelling Go's `<` on strings
(byte-wise lexicographic; identical to code-point order for UTF-8 data). -/
def ltChars : List Char → List Char → Bool
  | [], [] => false
  | [], _ :: _ => true
  | _ :: _, [] => false
  | a :: as, b :: bs => if a < b then true else if b < a then false else ltChars as bs

/-- `a ≤ b` on char lists, modelling Go's `>=` comparison (flipped). -/
def leChars (a b : List Char) : Bool := ! ltChars b a

/-- Source: `type header_field struct { key string; index int }`. -/
structure header_field where
  key : Fld
  index : Nat
deriving DecidableEq

/-- Insert one field into a key-sorted list (helper for `sortFields`). -/
def insertField (p : header_field) : List header_field → List header_field
  | [] => [p]
  | q :: rest => if ltChars p.key q.key then p :: q :: rest else q :: insertField p rest

/-- Sorting the header fields by key ascending, modelling
`sort.Slice(c.sorted_header, ...)` in `FindKeyIndex`.  (Go's `sort.Slice`
is unstable, so for duplicate keys the relative order is unspecified;
no claim below involves duplicate header names.) -/
def sortFields : List header_field → List header_field
  | [] => []
  | p :: rest => insertField p (sortFields rest)

/-- The lazily built `sorted_header`: the header entries as
`(key, original index)` pairs, sorted by key. -/
def mkSorted (header : List Fld) : List header_field :=
  sortFields (header.enum.map fun p => ⟨p.2, p.1⟩)

/-- Source: `func (c *CSV_HEADER) FindKeyIndex(key string) int`.

The Go code runs
`i := sort.Search(len(sorted), func(i) bool { return sorted[i].key >= key })`;
on the sorted slice the binary search returns the least position whose key
is `>= key` (and `len(sorted)` when there is none), which is `List.findIdx`
of the same predicate.  The Go code then tests
`i == -1 || c.sorted_header[i].key != key` — but `sort.Search` never
returns `-1`; when it returns `len(sorted)` the slice access
`c.sorted_header[i].key` panics with an index-out-of-range run-time error.
That panic is modelled as `none`; the returned `int` (`-1` for not found,
otherwise the original header position) is modelled as `some _`. -/
def FindKeyIndex (header : List Fld) (key : Fld) : Option Int :=
  let sorted := mkSorted header
  let i := sorted.findIdx fun p => leChars key p.key
  match sorted.get? i with
  | none => none
  | some p => if p.key ≠ key then some (-1) else some (p.index : Int)

/-- `unicode.IsSpace` restricted to the ASCII range (the only characters the
claims exercise); models the cutset of `strings.TrimSpace`. -/
def isGoSpace (c : Char) : Bool :=
  c = ' ' ∨ c = '\t' ∨ c = '\n' ∨ c = '\x0b' ∨ c = '\x0c' ∨ c = '\r'

/-- `strings.TrimSpace`: remove leading and trailing whitespace. -/
def trimSpaceGo (s : List Char) : List Char :=
  ((s.dropWhile isGoSpace).reverse.dropWhile isGoSpace).reverse

/-- The three sentinel errors of the package:
`ErrInvalidFile`, `ErrInvalidCSV` (the spec's `InvalidTable`),
`ErrInvalidTemplate`. -/
inductive TErr where
  | invalidFile
  | invalidCSV
  | invalidTemplate
deriving DecidableEq

/-- Outcome of a constructor: a value, a returned sentinel error, or a Go
run-time panic (which is an abort, not a returned error). -/
inductive Res (α : Type) where
  | ok (a : α)
  | err (e : TErr)
  | panic

/-- Source: `type FILE struct { name, mimetype string; b []byte }`. -/
structure FILE where
  name : List Char
  mimetype : List Char
  b : List Char

/-- Source: `func NewFile(name, mimetype string, b []byte) (*FILE, error)`:
trims the name and mimetype, rejects empty ones with `ErrInvalidFile`,
and stores copies of its arguments. -/
def NewFile (name mimetype b : List Char) : Res FILE :=
  let name := trimSpaceGo name
  if name.length = 0 then .err .invalidFile
  else
    let mimetype := trimSpaceGo mimetype
    if mimetype.length = 0 then .err .invalidFile
    else .ok ⟨name, mimetype, b⟩

/-- The dataset: `type CSV struct { ...; header CSV_HEADER; rows [][]string }`
(the embedded `FILE` carries no behaviour the claims touch). -/
structure CSVdata where
  header : List Fld
  rows : List Row

/-- Modelled from the spec: the external `encoding/csv` reader
(spec section 4.1, "external collaborator — specified at interface only").
Reading the raw bytes either fails at the header row, fails in the body,
or yields a header and the body rows. -/
inductive CsvReadResult where
  | headerErr
  | bodyErr (header : List Fld)
  | ok (header : List Fld) (rows : List Row)

/-- The row-validation loop of `NewCSV`: every row whose length differs from
the header's length aborts construction; otherwise rows are cloned and kept
in order. -/
def buildRows (hlen : Nat) : List Row → Option (List Row)
  | [] => some []
  | r :: rs => if r.length = hlen then (buildRows hlen rs).map (r :: ·) else none

/-- Source: `func NewCSV(name, mimetype string, b []byte) (*CSV, error)`.
The byte-level CSV parsing is delegated to `encoding/csv` (external), so the
reader's outcome over `b` is taken as the argument `parsed`; the rest is the
source code: `NewFile` validation, `ErrInvalidCSV` on a header or body read
error, and the per-row width check against the header. -/
def NewCSV (name mimetype b : List Char) (parsed : CsvReadResult) : Res CSVdata :=
  match NewFile name mimetype b with
  | .err e => .err e
  | .panic => .panic
  | .ok _file =>
    match parsed with
    | .headerErr => .err .invalidCSV
    | .bodyErr _ => .err .invalidCSV
    | .ok header rows =>
      match buildRows header.length rows with
      | none => .err .invalidCSV
      | some kept => .ok ⟨header, kept⟩

/-- The byte-at-a-time scan shared by `readUntilNextTemplateAction` and
`readUntilNextTemplateActionEnd`: read bytes, appending them to a buffer,
until the buffer ends in the two-byte token `dd`; return the consumed
buffer (token included) and the unread remainder, or `none` when the
input is exhausted first (Go: the `errNoToken`-wrapped `io.EOF` error,
with the whole input consumed into the returned buffer). -/
def readUntilTwo (d : Char) : List Char → Option (List Char × List Char)
  | [] => none
  | x :: rest =>
    match rest with
    | [] => none
    | y :: rest2 =>
      if x = d ∧ y = d then some ([x, y], rest2)
      else
        match readUntilTwo d rest with
        | none => none
        | some (p, r) => some (x :: p, r)

/-- Source: `readUntilNextTemplateAction` — scan up to and including the
next `\x7b\x7b` open delimiter. -/
def readUntilNextTemplateAction (s : List Char) : Option (List Char × List Char) :=
  readUntilTwo '{' s

/-- Source: `readUntilNextTemplateActionEnd` — scan up to and including the
next `\x7d\x7d` close delimiter. -/
def readUntilNextTemplateActionEnd (s : List Char) : Option (List Char × List Char) :=
  readUntilTwo '}' s

/-- The cutset of `strings.Trim(got, " \t\n.\x7d")` in `AdaptTemplateToCSV`. -/
def isCut (c : Char) : Bool :=
  c = ' ' ∨ c = '\t' ∨ c = '\n' ∨ c = '.' ∨ c = '}'

/-- Remove the maximal suffix of cutset characters. -/
def trimRight (s : List Char) : List Char :=
  (s.reverse.dropWhile isCut).reverse

/-- `strings.Trim(s, " \t\n.\x7d")`: remove leading and trailing cutset
characters. -/
def trimGo (s : List Char) : List Char :=
  (trimRight s).dropWhile isCut

/-- The rewritten action body emitted by `AdaptTemplateToCSV`:
`fmt.Sprintf(" index . %d \x7d\x7d", i)` (the opening `\x7b\x7b` was already
emitted as part of the scanned prefix). -/
def rewriteAction (i : Int) : List Char :=
  (" index . " ++ toString i ++ " \x7d\x7d").toList

/-- Template-adaptation errors: `ErrInvalidTemplate` with either the
"no action end found after opening" message or the
"key '…' not found in csv header" message (which names the key). -/
inductive AdaptErr where
  | unterminated
  | keyNotFound (key : List Char)
deriving DecidableEq

/-- Outcome of adaptation: the adapted bytes, an `ErrInvalidTemplate`
(in which case Go returns `nil` bytes — no partial output), or a panic. -/
inductive AdaptR where
  | ok (out : List Char)
  | err (e : AdaptErr)
  | panic
deriving DecidableEq

/-- The loop body of `AdaptTemplateToCSV`, with explicit fuel to make the
recursion structural.  Each iteration consumes at least four characters
(`\x7b\x7b` plus at least `\x7d\x7d`), so `s.length + 1` fuel never runs out
(`adaptFuel_irrel` below); the fuel-0 branch is unreachable from
`AdaptTemplateToCSV`.  One iteration: scan (and emit) up to the next open
delimiter — end of input here means the remainder was emitted verbatim and
adaptation succeeds; then scan to the close delimiter — end of input here
is `ErrInvalidTemplate` (unterminated); trim the captured action, resolve
it via `FindKeyIndex` (whose panic propagates, and whose `-1` is
`ErrInvalidTemplate` naming the key), emit the rewritten action, loop.
A later error discards all accumulated output (Go returns `nil, err`). -/
def adaptFuel (hdr : List Fld) : Nat → List Char → AdaptR
  | 0, _ => .panic
  | fuel + 1, s =>
    match readUntilNextTemplateAction s with
    | none => .ok s
    | some (pre, rest) =>
      match readUntilNextTemplateActionEnd rest with
      | none => .err .unterminated
      | some (action, rest2) =>
        let key := trimGo action
        match FindKeyIndex hdr key with
        | none => .panic
        | some i =>
          if i = -1 then .err (.keyNotFound key)
          else
            match adaptFuel hdr fuel rest2 with
            | .ok out => .ok (pre ++ rewriteAction i ++ out)
            | e => e

/-- Source: `func AdaptTemplateToCSV(csv *CSV, raw_template *FILE)`; the
dataset enters only through its header. -/
def AdaptTemplateToCSV (hdr : List Fld) (s : List Char) : AdaptR :=
  adaptFuel hdr (s.length + 1) s

/-- Errors out of `Template.Next`: the `io.EOF`-wrapped exhaustion signal,
or an execution error from the external template engine (never `io.EOF`:
adapted templates contain only literal text and `index` actions). -/
inductive NextError where
  | eof
  | exec (msg : List Char)
deriving DecidableEq

/-- The `(templateoutput, csvrow, err)` result triple of `Template.Next`. -/
structure NextOut where
  output : List Char
  csvrow : Row
  err : Option NextError
deriving DecidableEq

/-- Source: `type Template struct`; the fields the claims touch are the
dataset rows, the cursor `position`, and the compiled adapted template,
the latter modelled by its execution behaviour `render`, returning the
bytes written plus an optional execution error. -/
structure TState where
  rows : List Row
  position : Nat
  render : Row → List Char × Option (List Char)

/-- Source: `func (t *Template) Next()`.  At or past the end of the rows it
returns the `io.EOF`-wrapped error and leaves the state unchanged;
otherwise it advances the cursor by one, clones the row, executes the
adapted template on it, and returns the written bytes, the row copy, and
the engine's error (if any). -/
def Next (t : TState) : NextOut × TState :=
  if h : t.position < t.rows.length then
    let row := t.rows.get ⟨t.position, h⟩
    let r := t.render row
    (⟨r.1, row, r.2.map NextError.exec⟩, { t with position := t.position + 1 })
  else
    (⟨[], [], some .eof⟩, t)

/-- `k` successive `Next` calls, keeping only the final state. -/
def stepN (t : TState) : Nat → TState
  | 0 => t
  | k + 1 => (Next (stepN t k)).2

/-- Source: `func (t *Template) ExecuteAll()`: invoke `Next` repeatedly;
turn the exhaustion signal into a nil error, abort on any other error
returning what was accumulated so far, and otherwise accumulate the output
and the row copy.  Terminates because every non-`eof` step moves the
cursor strictly towards `rows.length`. -/
def ExecuteAll (t : TState) : List (List Char) × List Row × Option NextError :=
  match hn : Next t with
  | (out, t') =>
    match he : out.err with
    | some .eof => ([], [], none)
    | some (.exec e) => ([], [], some (.exec e))
    | none =>
      let rest := ExecuteAll t'
      (out.output :: rest.1, out.csvrow :: rest.2.1, rest.2.2)
termination_by t.rows.length - t.position
decreasing_by
  simp only [Next] at hn
  split at hn
  · next hlt =>
    cases hn
    simp only []
    omega
  · cases hn
    simp_all

/-- A non-empty all-digit character list read as a decimal number
(helper for the modelled expression evaluator). -/
def parseNatDigits (s : List Char) : Option Nat :=
  if s ≠ [] ∧ s.all (fun c => c.isDigit) then
    some (s.foldl (fun a c => a * 10 + (c.toNat - 48)) 0)
  else none

/-- Modelled from the spec: recognising one positional-lookup action body,
"index the current row at position *i*" (spec section 4.3 step 4) — the
head word `index` followed by the position, in the expression syntax whose
surrounding punctuation is the trim cutset. -/
def parseIndexAction (action : List Char) : Option Nat :=
  match trimGo action with
  | 'i' :: 'n' :: 'd' :: 'e' :: 'x' :: rest => parseNatDigits (trimGo rest)
  | _ => none

/-- Fuel-structured body of `execAdapted` (same shape as `adaptFuel`). -/
def execFuel (row : Row) : Nat → List Char → Option (List Char)
  | 0, _ => none
  | fuel + 1, s =>
    match readUntilNextTemplateAction s with
    | none => some s
    | some (pre, rest) =>
      match readUntilNextTemplateActionEnd rest with
      | none => none
      | some (action, rest2) =>
        match parseIndexAction action with
        | none => none
        | some n =>
          match row.get? n with
          | none => none
          | some v =>
            match execFuel row fuel rest2 with
            | none => none
            | some out => some (pre.take (pre.length - 2) ++ v ++ out)

/-- Modelled from the spec: the external template-expression evaluator
(`text/template`; spec section 1 treats it as an out-of-scope collaborator:
"given an adapted source and a positional row, it substitutes and
renders").  Restricted to what the adapter emits: literal text plus
positional-lookup actions; literal text is emitted verbatim and each
action is replaced by the row value at its position. -/
def execAdapted (row : Row) (s : List Char) : Option (List Char) :=
  execFuel row (s.length + 1) s

/-- Source: `func NewTemplate(name, mimetype string, b []byte, csv *CSV)`:
file validation, adaptation against the dataset header (whose
`ErrInvalidTemplate` errors and panics propagate), then compilation by the
external engine — modelled (from the spec) as the `execAdapted` behaviour
over the adapted bytes — and a renderer state with cursor 0 over the
dataset's rows. -/
def NewTemplate (name mimetype b : List Char) (c : CSVdata) : Res TState :=
  match NewFile name mimetype b with
  | .err e => .err e
  | .panic => .panic
  | .ok file =>
    match AdaptTemplateToCSV c.header file.b with
    | .panic => .panic
    | .err _ => .err .invalidTemplate
    | .ok adapted =>
      .ok { rows := c.rows, position := 0,
            render := fun row =>
              match execAdapted row adapted with
              | some out => (out, none)
              | none => ([], some (("template execution error").toList)) }

/-- The header of the test dataset (`TheTestCSV` in `template_test.go`). -/
def testHeader : List Fld :=
  [("SenderName").toList, ("RecipientName").toList, ("GroupName").toList]

/-- The single body row of the test dataset. -/
def testRow : Row :=
  [("sender@example.com").toList, ("recipient@example.com").toList, ("group name").toList]

/-- The raw bytes of the test dataset (`TheTestCSV`). -/
def theTestCSVBytes : List Char :=
  ("SenderName,RecipientName,GroupName\nsender@example.com,recipient@example.com,group name\n").toList

/-- Modelled from the spec: the external csv reader's outcome on
`theTestCSVBytes` — the comma-separated header and the one body row. -/
def theTestCSVParsed : CsvReadResult := .ok testHeader [testRow]

/-- The test template (`TheTestTemplate`). -/
def theTestTemplate : List Char :=
  ("Hello, \x7b\x7b RecipientName \x7d\x7d\n\nWelcome to \x7b\x7b GroupName \x7d\x7d.\n\nThank you,\n\x7b\x7b SenderName \x7d\x7d\n").toList

/-- The expected rendering (`TheTestCSVTemplateResults`). -/
def theTestCSVTemplateResults : List Char :=
  ("Hello, recipient@example.com\n\nWelcome to group name.\n\nThank you,\nsender@example.com\n").toList

/-- The dataset built over the test bytes. -/
def theTestCSV : Res CSVdata :=
  NewCSV (("test.csv").toList) (("text/csv").toList) theTestCSVBytes theTestCSVParsed

/-- First `Next` call of a built template: the rendered bytes and error. -/
def firstOutput (r : Res TState) : Option (List Char × Option NextError) :=
  match r with
  | .ok t => some ((Next t).1.output, (Next t).1.err)
  | _ => none

/-- The round-trip of `TestReadCSV`: build the dataset, build the template
over it, produce the first output. -/
def theTestPipeline : Option (List Char × Option NextError) :=
  match theTestCSV with
  | .ok c =>
    firstOutput (NewTemplate (("test.template").toList) (("text/plain").toList) theTestTemplate c)
  | _ => none

/-- `s` contains two adjacent occurrences of `d` (the two-byte delimiter
`dd` occurs in the stream). -/
def hasPair (d : Char) : List Char → Bool
  | [] => false
  | x :: rest =>
    match rest with
    | [] => false
    | y :: _ => (x = d && y = d) || hasPair d rest

/-- The last character of `s` is `d`. -/
def lastIs (d : Char) : List Char → Bool
  | [] => false
  | [x] => x = d
  | _ :: y :: rest => lastIs d (y :: rest)

/-- A template decomposed around its placeholder actions: the literal text
before an open delimiter, and the action text strictly between the
delimiters. -/
structure Segment where
  lit : List Char
  body : List Char

/-- The candidate name resolves to a header position: `FindKeyIndex`
returns without panicking and does not return the NotFound value `-1`. -/
def resolves (hdr : List Fld) (key : Fld) : Bool :=
  match FindKeyIndex hdr key with
  | some i => i != -1
  | none => false

/-- Side conditions under which a decomposed segment is scanned as written:
its literal holds no open delimiter and does not end in `{` (so the scan
finds the delimiter exactly at the seam), its action body holds no close
delimiter and does not end in `}` (likewise), and its trimmed candidate
name resolves to a header position. -/
abbrev goodSeg (hdr : List Fld) (seg : Segment) : Prop :=
  hasPair '{' seg.lit = false ∧ lastIs '{' seg.lit = false ∧
    hasPair '}' seg.body = false ∧ lastIs '}' seg.body = false ∧
    resolves hdr (trimGo seg.body) = true

/-- Reassemble a decomposed template: each segment contributes its literal,
the open delimiter, its action body and the close delimiter; the trailing
literal follows. -/
def joinTemplate : List Segment → List Char → List Char
  | [], tail => tail
  | seg :: rest, tail =>
    seg.lit ++ '{' :: '{' :: (seg.body ++ '}' :: '}' :: joinTemplate rest tail)

/-- What adaptation makes of one segment: the literal copied verbatim, then
the rewritten action (open delimiter plus positional-lookup body) for the
resolved position of the trimmed candidate name. -/
def adaptedSeg (hdr : List Fld) (seg : Segment) : List Char :=
  seg.lit ++ '{' :: '{' ::
    (match FindKeyIndex hdr (trimGo seg.body) with
     | some i => rewriteAction i
     | none => [])

/-- The fully adapted reassembled template. -/
def joinAdapted (hdr : List Fld) : List Segment → List Char → List Char
  | [], tail => tail
  | seg :: rest, tail => adaptedSeg hdr seg ++ joinAdapted hdr rest tail

/-- The decomposition of `theTestTemplate` into segments. -/
def testSegs : List Segment :=
  [⟨("Hello, ").toList, (" RecipientName ").toList⟩,
   ⟨("\n\nWelcome to ").toList, (" GroupName ").toList⟩,
   ⟨(".\n\nThank you,\n").toList, (" SenderName ").toList⟩]

/-- Reference loop for `ExecuteAll`, phrased over the still-unconsumed rows:
stop with a nil error on exhaustion, stop with the execution error as soon
as a row's render fails, otherwise accumulate output and row in order. -/
def runAll (render : Row → List Char × Option (List Char)) :
    List Row → List (List Char) × List Row × Option NextError
  | [] => ([], [], none)
  | r :: rs =>
    match (render r).2 with
    | some e => ([], [], some (.exec e))
    | none =>
      let rest := runAll render rs
      ((render r).1 :: rest.1, r :: rest.2.1, rest.2.2)

/-- A two-row dataset used by the witnesses. -/
def demoRows : List Row := [[("a").toList], [("b").toList]]

/-- A renderer that succeeds on every row, echoing its first field. -/
def demoRender : Row → List Char × Option (List Char) :=
  fun r => (r.headI, none)

/-- A renderer that fails on the first demo row only. -/
def demoRenderErr : Row → List Char × Option (List Char) :=
  fun r => if r = [("a").toList] then ([], some (("boom").toList)) else (r.headI, none)


theorem readUntilTwo_cons (d x y : Char) (rest2 : List Char) :
    readUntilTwo d (x :: y :: rest2) =
      if x = d ∧ y = d then some ([x, y], rest2)
      else
        match readUntilTwo d (y :: rest2) with
        | none => none
        | some (p, r) => some (x :: p, r) := rfl

theorem hasPair_cons (d x y : Char) (rest2 : List Char) :
    hasPair d (x :: y :: rest2) = ((x = d && y = d) || hasPair d (y :: rest2)) := rfl

theorem lastIs_cons (d x y : Char) (rest2 : List Char) :
    lastIs d (x :: y :: rest2) = lastIs d (y :: rest2) := rfl

theorem readUntilTwo_some (d : Char) :
    ∀ s p r, readUntilTwo d s = some (p, r) → s = p ++ r ∧ 2 ≤ p.length := by
  intro s
  induction s with
  | nil => intro p r h; simp [readUntilTwo] at h
  | cons x rest ih =>
    intro p r h
    cases rest with
    | nil => simp [readUntilTwo] at h
    | cons y rest2 =>
      rw [readUntilTwo_cons] at h
      split at h
      · cases h
        simp
      · cases hrec : readUntilTwo d (y :: rest2) with
        | none => rw [hrec] at h; simp at h
        | some pr =>
          obtain ⟨p', r'⟩ := pr
          rw [hrec] at h
          simp only [Option.some.injEq, Prod.mk.injEq] at h
          obtain ⟨hp, hr⟩ := h
          obtain ⟨hs, hl⟩ := ih p' r' hrec
          subst hp hr
          refine ⟨by simp [hs], by simp; omega⟩

theorem readUntilTwo_none_of_noPair (d : Char) :
    ∀ s, hasPair d s = false → readUntilTwo d s = none := by
  intro s
  induction s with
  | nil => intro _; rfl
  | cons x rest ih =>
    intro h
    cases rest with
    | nil => rfl
    | cons y rest2 =>
      rw [hasPair_cons, Bool.or_eq_false_iff, Bool.and_eq_false_iff] at h
      rw [readUntilTwo_cons, if_neg, ih h.2]
      intro hc
      rcases h.1 with h1 | h1 <;> simp [hc.1, hc.2] at h1

theorem readUntilTwo_append (d : Char) :
    ∀ pre rest, hasPair d pre = false → lastIs d pre = false →
      readUntilTwo d (pre ++ d :: d :: rest) = some (pre ++ [d, d], rest) := by
  intro pre
  induction pre with
  | nil => intro rest _ _; rw [List.nil_append, readUntilTwo_cons, if_pos ⟨rfl, rfl⟩]; rfl
  | cons x pre' ih =>
    intro rest hpair hlast
    cases pre' with
    | nil =>
      simp only [lastIs] at hlast
      rw [List.cons_append, List.nil_append, readUntilTwo_cons, if_neg]
      · rw [readUntilTwo_cons, if_pos ⟨rfl, rfl⟩]
        rfl
      · intro hc
        simp [hc.1] at hlast
    | cons z pre'' =>
      rw [hasPair_cons, Bool.or_eq_false_iff, Bool.and_eq_false_iff] at hpair
      rw [lastIs_cons] at hlast
      simp only [List.cons_append] at ih ⊢
      rw [readUntilTwo_cons, if_neg, ih rest hpair.2 hlast]
      intro hc
      rcases hpair.1 with h1 | h1 <;> simp [hc.1, hc.2] at h1

theorem adaptFuel_irrel (hdr : List Fld) :
    ∀ f s f', s.length < f → s.length < f' → adaptFuel hdr f s = adaptFuel hdr f' s := by
  intro f
  induction f with
  | zero => intro s f' h; omega
  | succ f ih =>
    intro s f' h h'
    cases f' with
    | zero => omega
    | succ f'' =>
      cases h1 : readUntilNextTemplateAction s with
      | none => simp only [adaptFuel, h1]
      | some pr =>
        obtain ⟨pre, rest⟩ := pr
        cases h2 : readUntilNextTemplateActionEnd rest with
        | none => simp only [adaptFuel, h1, h2]
        | some ar =>
          obtain ⟨action, rest2⟩ := ar
          have hb1 := readUntilTwo_some '{' s pre rest h1
          have hb2 := readUntilTwo_some '}' rest action rest2 h2
          have hlen : rest2.length < f ∧ rest2.length < f'' := by
            have e1 : s.length = pre.length + rest.length := by rw [hb1.1]; simp
            have e2 : rest.length = action.length + rest2.length := by rw [hb2.1]; simp
            omega
          simp only [adaptFuel, h1, h2]
          rw [ih rest2 f'' hlen.1 hlen.2]

theorem adapt_ok_of_none (hdr : List Fld) (s : List Char)
    (h : readUntilNextTemplateAction s = none) :
    AdaptTemplateToCSV hdr s = .ok s := by
  unfold AdaptTemplateToCSV
  simp only [adaptFuel, h]

theorem adapt_ok_of_noPair (hdr : List Fld) (s : List Char)
    (h : hasPair '{' s = false) :
    AdaptTemplateToCSV hdr s = .ok s :=
  adapt_ok_of_none hdr s (readUntilTwo_none_of_noPair '{' s h)

theorem adapt_err_unterminated (hdr : List Fld) (s pre rest : List Char)
    (h1 : readUntilNextTemplateAction s = some (pre, rest))
    (h2 : readUntilNextTemplateActionEnd rest = none) :
    AdaptTemplateToCSV hdr s = .err .unterminated := by
  unfold AdaptTemplateToCSV
  simp only [adaptFuel, h1, h2]

theorem adapt_step (hdr : List Fld) (s pre rest action rest2 : List Char)
    (h1 : readUntilNextTemplateAction s = some (pre, rest))
    (h2 : readUntilNextTemplateActionEnd rest = some (action, rest2)) :
    AdaptTemplateToCSV hdr s =
      (match FindKeyIndex hdr (trimGo action) with
       | none => .panic
       | some i =>
         if i = -1 then .err (.keyNotFound (trimGo action))
         else
           match AdaptTemplateToCSV hdr rest2 with
           | .ok out => .ok (pre ++ rewriteAction i ++ out)
           | e => e) := by
  have hb1 := readUntilTwo_some '{' s pre rest h1
  have hb2 := readUntilTwo_some '}' rest action rest2 h2
  have hlen : rest2.length < s.length := by
    have e1 : s.length = pre.length + rest.length := by rw [hb1.1]; simp
    have e2 : rest.length = action.length + rest2.length := by rw [hb2.1]; simp
    omega
  have hL : AdaptTemplateToCSV hdr s =
      (match FindKeyIndex hdr (trimGo action) with
       | none => AdaptR.panic
       | some i =>
         if i = -1 then AdaptR.err (AdaptErr.keyNotFound (trimGo action))
         else
           match adaptFuel hdr s.length rest2 with
           | AdaptR.ok out => AdaptR.ok (pre ++ rewriteAction i ++ out)
           | e => e) := by
    unfold AdaptTemplateToCSV
    simp only [adaptFuel, h1, h2]
  rw [hL, adaptFuel_irrel hdr s.length rest2 (rest2.length + 1) hlen (by omega)]
  rfl

theorem trimRight_append_cut (l : List Char) (c : Char) (h : isCut c = true) :
    trimRight (l ++ [c]) = trimRight l := by
  unfold trimRight
  rw [List.reverse_append]
  simp [List.dropWhile_cons, h]

theorem trimGo_append_close (body : List Char) :
    trimGo (body ++ ['}', '}']) = trimGo body := by
  unfold trimGo
  rw [show body ++ ['}', '}'] = (body ++ ['}']) ++ ['}'] by simp,
    trimRight_append_cut _ _ (by decide), trimRight_append_cut _ _ (by decide)]

theorem Next_of_lt {t : TState} (h : t.position < t.rows.length) :
    Next t = (⟨(t.render (t.rows.get ⟨t.position, h⟩)).1, t.rows.get ⟨t.position, h⟩,
               ((t.render (t.rows.get ⟨t.position, h⟩)).2).map NextError.exec⟩,
              { t with position := t.position + 1 }) := by
  simp [Next, h]

theorem Next_of_ge {t : TState} (h : ¬ t.position < t.rows.length) :
    Next t = (⟨[], [], some .eof⟩, t) := by
  simp [Next, h]

theorem stepN_fields (t : TState) (k : Nat) :
    (stepN t k).rows = t.rows ∧ (stepN t k).render = t.render := by
  induction k with
  | zero => exact ⟨rfl, rfl⟩
  | succ k ih =>
    simp only [stepN]
    by_cases h : (stepN t k).position < (stepN t k).rows.length
    · rw [Next_of_lt h]
      exact ih
    · rw [Next_of_ge h]
      exact ih

theorem stepN_position (t : TState) (k : Nat) (h : t.position ≤ t.rows.length) :
    (stepN t k).position = min (t.position + k) t.rows.length := by
  induction k with
  | zero => simp [stepN]; omega
  | succ k ih =>
    have hr := (stepN_fields t k).1
    simp only [stepN]
    by_cases hlt : (stepN t k).position < (stepN t k).rows.length
    · rw [Next_of_lt hlt]
      simp only []
      rw [hr] at hlt
      omega
    · rw [Next_of_ge hlt]
      simp only []
      rw [hr] at hlt
      omega

theorem Next_stepN_lt (t : TState) (k : Nat) (h0 : t.position = 0)
    (hk : k < t.rows.length) :
    (Next (stepN t k)).1 =
      ⟨(t.render (t.rows.get ⟨k, hk⟩)).1, t.rows.get ⟨k, hk⟩,
       ((t.render (t.rows.get ⟨k, hk⟩)).2).map NextError.exec⟩ := by
  obtain ⟨hrows, hrender⟩ := stepN_fields t k
  have hpos : (stepN t k).position = k := by
    rw [stepN_position t k (by omega), h0]
    omega
  have hlt : (stepN t k).position < (stepN t k).rows.length := by
    rw [hrows, hpos]
    exact hk
  rw [Next_of_lt hlt]
  have hget : (stepN t k).rows.get ⟨(stepN t k).position, hlt⟩ = t.rows.get ⟨k, hk⟩ := by
    simp only [List.get_eq_getElem]
    congr 1
  rw [hget, hrender]

theorem Next_stepN_eof (t : TState) (k : Nat) (hpos : t.position ≤ t.rows.length)
    (hk : t.rows.length ≤ t.position + k) :
    (Next (stepN t k)).1.err = some .eof := by
  obtain ⟨hrows, _⟩ := stepN_fields t k
  have hge : ¬ (stepN t k).position < (stepN t k).rows.length := by
    rw [hrows, stepN_position t k hpos]
    omega
  rw [Next_of_ge hge]

theorem ExecuteAll_exhausted {t : TState} (h : ¬ t.position < t.rows.length) :
    ExecuteAll t = ([], [], none) := by
  rw [ExecuteAll, Next_of_ge h]

theorem ExecuteAll_execErr {t : TState} (hlt : t.position < t.rows.length)
    (e : List Char) (he : (t.render (t.rows.get ⟨t.position, hlt⟩)).2 = some e) :
    ExecuteAll t = ([], [], some (.exec e)) := by
  rw [ExecuteAll, Next_of_lt hlt, he]
  rfl

theorem ExecuteAll_cons {t : TState} (hlt : t.position < t.rows.length)
    (he : (t.render (t.rows.get ⟨t.position, hlt⟩)).2 = none) :
    ExecuteAll t =
      ((t.render (t.rows.get ⟨t.position, hlt⟩)).1 ::
         (ExecuteAll { t with position := t.position + 1 }).1,
       t.rows.get ⟨t.position, hlt⟩ ::
         (ExecuteAll { t with position := t.position + 1 }).2.1,
       (ExecuteAll { t with position := t.position + 1 }).2.2) := by
  rw [ExecuteAll, Next_of_lt hlt, he]
  rfl

theorem ExecuteAll_eq_runAll :
    ∀ (n : Nat) (t : TState), t.rows.length - t.position ≤ n →
      ExecuteAll t = runAll t.render (t.rows.drop t.position) := by
  intro n
  induction n with
  | zero =>
    intro t hn
    have hge : ¬ t.position < t.rows.length := by omega
    rw [ExecuteAll_exhausted hge, List.drop_eq_nil_of_le (by omega)]
    rfl
  | succ n ih =>
    intro t hn
    by_cases hlt : t.position < t.rows.length
    · have hdrop : t.rows.drop t.position =
          t.rows.get ⟨t.position, hlt⟩ :: t.rows.drop (t.position + 1) := by
        rw [List.drop_eq_getElem_cons hlt]
        rfl
      cases he : (t.render (t.rows.get ⟨t.position, hlt⟩)).2 with
      | some e =>
        rw [ExecuteAll_execErr hlt e he, hdrop]
        simp only [runAll, he]
      | none =>
        have hrec := ih { t with position := t.position + 1 } (by simp; omega)
        simp only [] at hrec
        rw [ExecuteAll_cons hlt he, hdrop]
        simp only [runAll, he]
        rw [hrec]
    · rw [ExecuteAll_exhausted hlt, List.drop_eq_nil_of_le (by omega)]
      rfl

theorem runAll_success (render : Row → List Char × Option (List Char)) :
    ∀ rs : List Row, (∀ r ∈ rs, (render r).2 = none) →
      runAll render rs = (rs.map fun r => (render r).1, rs, none) := by
  intro rs
  induction rs with
  | nil => intro _; rfl
  | cons r rs ih =>
    intro h
    have hr : (render r).2 = none := h r (by simp)
    simp only [runAll, hr, ih fun x hx => h x (by simp [hx]), List.map_cons]

theorem runAll_firstError (render : Row → List Char × Option (List Char)) :
    ∀ (rs : List Row) (k : Nat) (e : List Char) (hk : k < rs.length),
      (∀ r ∈ rs.take k, (render r).2 = none) →
      (render (rs.get ⟨k, hk⟩)).2 = some e →
      runAll render rs =
        ((rs.take k).map (fun r => (render r).1), rs.take k, some (.exec e)) := by
  intro rs
  induction rs with
  | nil => intro k e hk; simp at hk
  | cons r rs ih =>
    intro k e hk hpre herr
    cases k with
    | zero =>
      have herr0 : (render r).2 = some e := herr
      simp only [runAll, herr0, List.take_zero, List.map_nil]
    | succ k =>
      have h0 : (render r).2 = none := hpre r (by simp)
      have hk' : k < rs.length := by simpa using hk
      have hpre' : ∀ x ∈ rs.take k, (render x).2 = none := by
        intro x hx
        exact hpre x (by simp [hx])
      have herr' : (render (rs.get ⟨k, hk'⟩)).2 = some e := by
        simpa using herr
      simp only [runAll, h0, ih k e hk' hpre' herr', List.take_succ_cons, List.map_cons]

theorem buildRows_none (hlen : Nat) :
    ∀ rs : List Row, (∃ r ∈ rs, r.length ≠ hlen) → buildRows hlen rs = none := by
  intro rs
  induction rs with
  | nil => intro h; simp at h
  | cons r rs ih =>
    intro h
    simp only [buildRows]
    by_cases hr : r.length = hlen
    · rw [if_pos hr]
      obtain ⟨x, hx, hxl⟩ := h
      rcases List.mem_cons.mp hx with h1 | h1
      · subst h1; exact absurd hr hxl
      · rw [ih ⟨x, h1, hxl⟩]
        rfl
    · rw [if_neg hr]

theorem buildRows_some (hlen : Nat) :
    ∀ rs kept : List Row, buildRows hlen rs = some kept →
      kept = rs ∧ ∀ r ∈ rs, r.length = hlen := by
  intro rs
  induction rs with
  | nil =>
    intro kept h
    simp only [buildRows, Option.some.injEq] at h
    subst h
    exact ⟨rfl, by simp⟩
  | cons r rs ih =>
    intro kept h
    simp only [buildRows] at h
    by_cases hr : r.length = hlen
    · rw [if_pos hr] at h
      cases hb : buildRows hlen rs with
      | none => rw [hb] at h; simp at h
      | some kept' =>
        rw [hb] at h
        have hkept : r :: kept' = kept := Option.some.inj h
        obtain ⟨hk, hall⟩ := ih kept' hb
        subst hkept
        refine ⟨by rw [hk], ?_⟩
        intro x hx
        rcases List.mem_cons.mp hx with h1 | h1
        · subst h1; exact hr
        · exact hall x h1
    · rw [if_neg hr] at h
      simp at h

/-- Claim C1 (code bug): the claim states that `FindKeyIndex` returns the
NotFound value `-1` for every key that matches no header name and never
fails or aborts, in particular for keys that sort after every header name
and for the empty header.  The code refutes exactly those two cases: for
the test header the key `Zzz` sorts after every header name, `sort.Search`
returns the header length, and the slice access panics (modelled `none`);
likewise any lookup in the empty header.  The `-1` NotFound value is
returned only when some sorted entry is `≥` the key, and a present key
resolves to its original position. -/
theorem findKeyIndexTotality :
    FindKeyIndex testHeader (("Zzz").toList) = none ∧
    FindKeyIndex [] (("AnyKey").toList) = none ∧
    FindKeyIndex testHeader (("Bogus").toList) = some (-1) ∧
    FindKeyIndex testHeader (("RecipientName").toList) = some 1 := by
  decide

/-- Claim C4 (code bug): the claim states that a placeholder whose trimmed
candidate name is absent from the header makes adaptation fail with an
`InvalidTemplate` error naming the key.  That holds when the absent key
sorts at or below some header name (second conjunct: the error names
`Bogus`), but when the absent key sorts after every header name the
lookup panics instead of returning an error (first conjunct, key `Zzz`). -/
theorem adaptUnknownKey :
    AdaptTemplateToCSV testHeader (("\x7b\x7b Zzz \x7d\x7d").toList) = .panic ∧
    AdaptTemplateToCSV testHeader (("\x7b\x7b Bogus \x7d\x7d").toList) =
      .err (.keyNotFound (("Bogus").toList)) := by
  decide

/-- Claim C5 (code bug): the claim states that every template containing an
open delimiter with no subsequent close delimiter fails adaptation with
`InvalidTemplate`.  The second conjunct proves the intended behaviour:
whenever the first open delimiter is never followed by a close delimiter,
adaptation returns the unterminated-action `InvalidTemplate` error (and,
the function being total, it terminates).  The first conjunct refutes the
claim as universally stated: a template whose unterminated action is
preceded by a complete action with a key sorting after every header name
panics inside the lookup before the unterminated action is reached. -/
theorem adaptUnterminatedAction :
    AdaptTemplateToCSV testHeader (("\x7b\x7b Zzz \x7d\x7d \x7b\x7bb").toList) = .panic ∧
    (∀ (hdr : List Fld) (pre rest : List Char),
      hasPair '{' pre = false → lastIs '{' pre = false → hasPair '}' rest = false →
      AdaptTemplateToCSV hdr (pre ++ '{' :: '{' :: rest) = .err .unterminated) := by
  constructor
  · decide
  · intro hdr pre rest h1 h2 h3
    exact adapt_err_unterminated hdr _ _ _
      (readUntilTwo_append '{' pre rest h1 h2)
      (readUntilTwo_none_of_noPair '}' rest h3)

/-- Witness for claim C5's second conjunct at the spec's own example
`Hello, \x7b\x7b RecipientName`. -/
theorem adaptUnterminatedAction_witness :
    hasPair '{' (("Hello, ").toList) = false ∧
    lastIs '{' (("Hello, ").toList) = false ∧
    hasPair '}' ((" RecipientName").toList) = false ∧
    AdaptTemplateToCSV testHeader
      (("Hello, ").toList ++ '{' :: '{' :: (" RecipientName").toList) =
      .err .unterminated :=
  ⟨by decide, by decide, by decide,
    adaptUnterminatedAction.2 testHeader (("Hello, ").toList) ((" RecipientName").toList)
      (by decide) (by decide) (by decide)⟩

/-- Claim C8: adaptation is the identity on templates containing no open
delimiter: it succeeds and returns the input bytes unchanged. -/
theorem adaptIdentityOnPlainTemplates (hdr : List Fld) (s : List Char)
    (h : hasPair '{' s = false) :
    AdaptTemplateToCSV hdr s = .ok s :=
  adapt_ok_of_noPair hdr s h

/-- Witness for claim C8 on a concrete placeholder-free template. -/
theorem adaptIdentityOnPlainTemplates_witness :
    hasPair '{' (("Hello world\n").toList) = false ∧
    AdaptTemplateToCSV testHeader (("Hello world\n").toList) =
      .ok (("Hello world\n").toList) :=
  ⟨by decide, adaptIdentityOnPlainTemplates testHeader (("Hello world\n").toList) (by decide)⟩

/-- Claim C3: on a template decomposed into literal/action segments whose
every action's trimmed candidate name resolves to a header position,
adaptation succeeds and yields the input with every action replaced by the
rewritten positional action for its resolved position, all bytes outside
the actions copied verbatim. -/
theorem adaptRewritesResolvedActions (hdr : List Fld) :
    ∀ (segs : List Segment) (tail : List Char),
      (∀ seg ∈ segs, goodSeg hdr seg) → hasPair '{' tail = false →
      AdaptTemplateToCSV hdr (joinTemplate segs tail) =
        .ok (joinAdapted hdr segs tail) := by
  intro segs
  induction segs with
  | nil =>
    intro tail _ htail
    exact adapt_ok_of_noPair hdr tail htail
  | cons seg segs ih =>
    intro tail hsegs htail
    obtain ⟨hl1, hl2, hb1, hb2, hres⟩ := hsegs seg (by simp)
    have h1 : readUntilNextTemplateAction (joinTemplate (seg :: segs) tail)
        = some (seg.lit ++ ['{', '{'], seg.body ++ '}' :: '}' :: joinTemplate segs tail) := by
      show readUntilTwo '{' _ = _
      rw [show joinTemplate (seg :: segs) tail =
        seg.lit ++ '{' :: '{' :: (seg.body ++ '}' :: '}' :: joinTemplate segs tail) from rfl]
      exact readUntilTwo_append '{' seg.lit _ hl1 hl2
    have h2 : readUntilNextTemplateActionEnd (seg.body ++ '}' :: '}' :: joinTemplate segs tail)
        = some (seg.body ++ ['}', '}'], joinTemplate segs tail) :=
      readUntilTwo_append '}' seg.body _ hb1 hb2
    rw [adapt_step hdr _ _ _ _ _ h1 h2, trimGo_append_close seg.body]
    unfold resolves at hres
    cases hfk : FindKeyIndex hdr (trimGo seg.body) with
    | none => rw [hfk] at hres; simp at hres
    | some i =>
      rw [hfk] at hres
      have hne : ¬ i = -1 := by simpa using hres
      simp only []
      rw [if_neg hne, ih tail (fun s hs => hsegs s (by simp [hs])) htail]
      simp only [joinAdapted, adaptedSeg, hfk]
      simp [List.append_assoc]

/-- Witness for claim C3: the test template decomposes into `testSegs` with
trailing literal a newline; every segment resolves against the test
header, and adaptation rewrites it segment by segment. -/
theorem adaptRewritesResolvedActions_witness :
    joinTemplate testSegs (("\n").toList) = theTestTemplate ∧
    (∀ seg ∈ testSegs, goodSeg testHeader seg) ∧
    AdaptTemplateToCSV testHeader (joinTemplate testSegs (("\n").toList)) =
      .ok (joinAdapted testHeader testSegs (("\n").toList)) :=
  ⟨by decide, by decide,
    adaptRewritesResolvedActions testHeader testSegs (("\n").toList) (by decide) (by decide)⟩

/-- Claim C2: from a fresh renderer over `rows`, the cursor after `k` calls
is `min k rows.length` (hence always in `[0, rows.length]`), the cursor
never decreases across a call, the `k`-th call with `k < rows.length`
returns the `k`-th row (a copy) together with the engine's output for that
row, and every call at or past `rows.length` returns the `io.EOF`
exhaustion signal and never any other error. -/
theorem nextSequencing (render : Row → List Char × Option (List Char))
    (rows : List Row) (k : Nat) :
    (stepN (TState.mk rows 0 render) k).position = min k rows.length ∧
    (stepN (TState.mk rows 0 render) k).position ≤
      (stepN (TState.mk rows 0 render) (k + 1)).position ∧
    (∀ hk : k < rows.length,
      (Next (stepN (TState.mk rows 0 render) k)).1.csvrow = rows.get ⟨k, hk⟩ ∧
      (Next (stepN (TState.mk rows 0 render) k)).1.output =
        (render (rows.get ⟨k, hk⟩)).1) ∧
    (rows.length ≤ k → (Next (stepN (TState.mk rows 0 render) k)).1.err = some .eof) := by
  have hle : (TState.mk rows 0 render).position ≤ (TState.mk rows 0 render).rows.length := by
    simp
  have hp1 := stepN_position (TState.mk rows 0 render) k hle
  have hp2 := stepN_position (TState.mk rows 0 render) (k + 1) hle
  simp only [] at hp1 hp2
  refine ⟨by rw [hp1]; omega, by rw [hp1, hp2]; omega, ?_, ?_⟩
  · intro hk
    have h := Next_stepN_lt (TState.mk rows 0 render) k rfl hk
    exact ⟨by rw [h], by rw [h]⟩
  · intro hk
    exact Next_stepN_eof (TState.mk rows 0 render) k hle (by simp; omega)

/-- Witness for claim C2 at the two-row demo dataset, second call. -/
theorem nextSequencing_witness :
    (1 : Nat) < demoRows.length ∧
    (Next (stepN (TState.mk demoRows 0 demoRender) 1)).1.csvrow =
      demoRows.get ⟨1, by decide⟩ :=
  ⟨by decide, ((nextSequencing demoRender demoRows 1).2.2.1 (by decide)).1⟩

/-- Claim C10: when the engine's execution fails on the row under the
cursor, `Next` still consumes that row: the error is returned together
with the row's copy, the cursor has advanced by one (same rows, same
engine), and from the advanced state enough further calls always reach
the `io.EOF` exhaustion signal. -/
theorem nextErrorConsumesRow (render : Row → List Char × Option (List Char))
    (rows : List Row) (pos : Nat) (out e : List Char)
    (hk : pos < rows.length)
    (hre : render (rows.get ⟨pos, hk⟩) = (out, some e)) :
    (Next (TState.mk rows pos render)).1.err = some (.exec e) ∧
    (Next (TState.mk rows pos render)).1.csvrow = rows.get ⟨pos, hk⟩ ∧
    (Next (TState.mk rows pos render)).2 = TState.mk rows (pos + 1) render ∧
    (∀ k : Nat, rows.length ≤ pos + 1 + k →
      (Next (stepN (TState.mk rows (pos + 1) render) k)).1.err = some .eof) := by
  have hlt : (TState.mk rows pos render).position < (TState.mk rows pos render).rows.length := hk
  rw [Next_of_lt hlt]
  refine ⟨?_, rfl, rfl, ?_⟩
  · show ((render (rows.get ⟨pos, hk⟩)).2).map NextError.exec = some (.exec e)
    rw [hre]
    rfl
  · intro k hke
    exact Next_stepN_eof (TState.mk rows (pos + 1) render) k (by simp; omega) (by simp; omega)

/-- Witness for claim C10: a renderer failing on the first demo row. -/
theorem nextErrorConsumesRow_witness :
    demoRenderErr (demoRows.get ⟨0, by decide⟩) = ([], some (("boom").toList)) ∧
    (Next (TState.mk demoRows 0 demoRenderErr)).1.err = some (.exec (("boom").toList)) ∧
    (Next (TState.mk demoRows 0 demoRenderErr)).2 = TState.mk demoRows 1 demoRenderErr :=
  ⟨by decide,
    (nextErrorConsumesRow demoRenderErr demoRows 0 [] (("boom").toList)
      (by decide) (by decide)).1,
    (nextErrorConsumesRow demoRenderErr demoRows 0 [] (("boom").toList)
      (by decide) (by decide)).2.2.1⟩

/-- Claim C6: `ExecuteAll` drives `Next` to exhaustion: when every row
renders without error it returns all rendered outputs and row copies in
row order with a nil error; when the first render error occurs at row `k`,
it stops there and returns exactly the outputs and rows accumulated from
the rows before `k`, together with that error. -/
theorem executeAllAggregation (render : Row → List Char × Option (List Char))
    (rows : List Row) :
    ((∀ r ∈ rows, (render r).2 = none) →
      ExecuteAll (TState.mk rows 0 render) =
        (rows.map fun r => (render r).1, rows, none)) ∧
    (∀ (k : Nat) (e : List Char) (hk : k < rows.length),
      (∀ r ∈ rows.take k, (render r).2 = none) →
      (render (rows.get ⟨k, hk⟩)).2 = some e →
      ExecuteAll (TState.mk rows 0 render) =
        ((rows.take k).map (fun r => (render r).1), rows.take k, some (.exec e))) := by
  have hb : ExecuteAll (TState.mk rows 0 render) = runAll render rows := by
    have h := ExecuteAll_eq_runAll rows.length (TState.mk rows 0 render) (by simp)
    simpa using h
  constructor
  · intro h
    rw [hb, runAll_success render rows h]
  · intro k e hk hpre herr
    rw [hb, runAll_firstError render rows k e hk hpre herr]

/-- Witness for claim C6, all-success half, on the demo dataset. -/
theorem executeAllAggregation_witness :
    (∀ r ∈ demoRows, (demoRender r).2 = none) ∧
    ExecuteAll (TState.mk demoRows 0 demoRender) =
      (demoRows.map fun r => (demoRender r).1, demoRows, none) :=
  ⟨by decide, (executeAllAggregation demoRender demoRows).1 (by decide)⟩

/-- Claim C7: with valid file metadata, if the external reader yields a
body row whose field count differs from the header's, `NewCSV` fails with
the `ErrInvalidCSV` error and no dataset is constructed; and whenever
construction succeeds, every stored row's length equals the header
length. -/
theorem csvWidthValidation (name mimetype b : List Char) (parsed : CsvReadResult)
    (hname : ¬ (trimSpaceGo name).length = 0)
    (hmime : ¬ (trimSpaceGo mimetype).length = 0) :
    (∀ (hdr : List Fld) (rows : List Row),
      parsed = .ok hdr rows → (∃ r ∈ rows, r.length ≠ hdr.length) →
      NewCSV name mimetype b parsed = .err .invalidCSV) ∧
    (∀ c : CSVdata, NewCSV name mimetype b parsed = .ok c →
      ∀ r ∈ c.rows, r.length = c.header.length) := by
  have hfile : NewFile name mimetype b = .ok ⟨trimSpaceGo name, trimSpaceGo mimetype, b⟩ := by
    simp only [NewFile, if_neg hname, if_neg hmime]
  constructor
  · intro hdr rows hp hex
    subst hp
    simp only [NewCSV, hfile]
    rw [buildRows_none hdr.length rows hex]
  · intro c hc
    cases parsed with
    | headerErr => simp [NewCSV, hfile] at hc
    | bodyErr hdr => simp [NewCSV, hfile] at hc
    | ok hdr rows =>
      simp only [NewCSV, hfile] at hc
      cases hbr : buildRows hdr.length rows with
      | none => rw [hbr] at hc; simp at hc
      | some kept =>
        rw [hbr] at hc
        obtain ⟨hkeep, hall⟩ := buildRows_some hdr.length rows kept hbr
        cases hc
        intro r hr
        exact hall r (hkeep ▸ hr)

/-- Witness for claim C7, width-mismatch half: a one-field body row against
the three-field test header. -/
theorem csvWidthValidation_witness :
    ¬ (trimSpaceGo (("test.csv").toList)).length = 0 ∧
    NewCSV (("test.csv").toList) (("text/csv").toList) theTestCSVBytes
      (.ok testHeader [[("x").toList]]) = .err .invalidCSV :=
  ⟨by decide,
    (csvWidthValidation (("test.csv").toList) (("text/csv").toList) theTestCSVBytes
        (.ok testHeader [[("x").toList]]) (by decide) (by decide)).1
      testHeader [[("x").toList]] rfl (by decide)⟩

/-- Claim C9: the literal round-trip scenario of the test suite: building
the dataset from the test bytes, adapting and compiling the test template
over it, and producing the first output yields exactly the expected
rendered bytes with no error. -/
theorem roundTripScenario :
    theTestPipeline = some (theTestCSVTemplateResults, none) := by
  decide
